import Mathlib

/-!
Verification of the csplit-style file-splitting engine of posixutils-rs.

The visible slice of the repository contains only the integration test suite
(src/text/tests/integration.rs) and the test harness (src/plib/src/testing.rs).
The splitter itself is not part of the visible sources, so the engine is
modelled from the specification (spec.md §3–§4); the test suite, which is
real repository code, pins the concrete observable behavior (arguments,
stdin, expected stdout/stderr/exit code, and the destination files each test
removes afterwards).
-/

set_option autoImplicit false
set_option maxRecDepth 100000

namespace Csplit

/-- Embedding of `plib::testing::TestPlan` (src/plib/src/testing.rs):
the command, its arguments, the data fed on stdin, and the expected
stdout, stderr and exit code that `run_test` asserts. -/
structure TestPlan where
  cmd : String
  args : List String
  stdin_data : String
  expected_out : String
  expected_err : String
  expected_exit_code : Int
deriving DecidableEq

/-- Embedding of the `csplit_test` helper (src/text/tests/integration.rs):
it always expects empty stderr and exit code 0. -/
def csplit_test (args : List String) (test_data : String) (expected_output : String) : TestPlan :=
  { cmd := "csplit"
    args := args
    stdin_data := test_data
    expected_out := expected_output
    expected_err := ""
    expected_exit_code := 0 }

/-- The plan of `test_csplit_text_by_lines`: splitting a 17-line stdin text
with patterns `5` and a repeat count of 3. -/
def csplitTextByLinesPlan : TestPlan :=
  csplit_test ["-f", "text", "-", "5", "{3}"]
    "1sdfghnm\n2sadsgdhjmf\n3zcxbncvm vbm\n4asdbncv\n5adsbfdgfnfm\n6sdfcvncbmcg\n7zsdgdgfndcgmncg\n8asdbsfdndcgmn\n9sfbdxgfndcgmncgmn\n10dvsd\n11\n12\n13\n14\n15\n16\n17"
    "43\n\n57\n\n31\n\n14\n\n"

/-- The destination files `test_csplit_text_by_lines` removes after the run
(they must have been created by a successful run). -/
def csplitTextByLinesRemoved : List String :=
  ["text00", "text01", "text02", "text03"]

/-- The plan of `test_csplit_c_code_by_regex_suppress`: `-s` suppresses the
report entirely; the expected stdout is empty. -/
def codeCSuppressPlan : TestPlan :=
  csplit_test ["-s", "-f", "code_c_s", "tests/assets/test_file_c", "%main\\(%", "/^\x7d/+1", "{3}"]
    "" ""

/-- The destination files `test_csplit_c_code_by_regex_suppress` removes:
four destinations are created even though the report is suppressed. -/
def codeCSuppressRemoved : List String :=
  ["code_c_s00", "code_c_s01", "code_c_s02", "code_c_s03"]

/-- The plan of `test_csplit_regex_by_empty_lines`. -/
def emptyLinesPlan : TestPlan :=
  csplit_test ["-f", "empty_lines", "tests/assets/empty_line.txt", "/^$/"]
    "" "6\n\n7\n\n"

/-- The plan of `test_csplit_regex_would_infloop`: an unbounded repeat over a
negative-offset regex that would loop forever without a guard. -/
def wouldInfloopPlan : TestPlan :=
  csplit_test ["-f", "would_infloop", "tests/assets/would_infloop.txt", "/a/-1", "{*}"]
    "" "2\n\n"

/-- The single destination file `test_csplit_regex_would_infloop` removes. -/
def wouldInfloopRemoved : List String := ["would_infloop00"]

/-- The plan of `test_csplit_regex_in_uniq`: an unbounded repeat that ends by
running out of matches (NoMatch recovery into tail handling). -/
def inUniqPlan : TestPlan :=
  csplit_test ["-f", "in_uniq", "tests/assets/in_uniq", "/^$/", "{*}"]
    "" "6\n\n10\n\n8\n\n9\n\n"

/-- The destination files `test_csplit_regex_in_uniq` removes. -/
def inUniqRemoved : List String :=
  ["in_uniq00", "in_uniq01", "in_uniq02", "in_uniq03"]

/-- Split a string into its lines, keeping each line terminator; a final
fragment without a terminator is kept as a last line (auxiliary walk). -/
def linesKeepAux : List Char → List Char → List String
  | [], acc => if acc.isEmpty then [] else [String.mk acc.reverse]
  | c :: cs, acc =>
    if c = '\n' then String.mk ((c :: acc).reverse) :: linesKeepAux cs []
    else linesKeepAux cs (c :: acc)

/-- Split a string into terminator-preserving lines. -/
def splitLinesKeep (s : String) : List String := linesKeepAux s.data []

/-- A destination suffix of the default width 2, zero-padded (spec §6). -/
def zeroPad2 (n : Nat) : String :=
  if n < 10 then "0" ++ Nat.repr n else Nat.repr n

/-- Destination name: caller prefix plus the zero-padded numeric suffix. -/
def destName (pre : String) (n : Nat) : String := pre ++ zeroPad2 n

/-- The report stream format pinned by the test suite: one decimal byte
count per destination, each followed by a newline and one extra empty line. -/
def reportBlocks (ns : List Nat) : String :=
  String.join (ns.map (fun n => Nat.repr n ++ "\n\n"))

/-- The report format as the spec §4.5 words describe it (one count per line
with nothing in between); kept for comparison against the pinned stream. -/
def reportPerLine (ns : List Nat) : String :=
  String.join (ns.map (fun n => Nat.repr n ++ "\n"))

/-- Modelled from the spec: an input line (spec §3 Line Source), its
terminator kept verbatim. -/
abbrev Line := String

/-- Modelled from the spec: a parsed split directive (spec §3 Pattern).
A regex is abstracted as its line-matching function; `rep none` is the
unbounded repeat and `rep (some k)` the bounded one. -/
inductive Pat where
  | lineNum (n : Nat)
  | regex (pm : Line → Bool) (off : Int) (sup : Bool)
  | rep (count : Option Nat)

/-- The regex-class data a `rep` pattern re-applies (spec §3/§4.2 step 4). -/
structure RegexSpec where
  pm : Line → Bool
  off : Int
  sup : Bool

/-- Modelled from the spec: the Split Cursor's engine state (spec §3 Engine
State): the previous cut point and the line index where the scan for the
next regex match resumes. -/
structure EngSt where
  prevCut : Nat
  searchFrom : Nat
deriving DecidableEq

/-- Modelled from the spec: a segment `[start, stop)` of line indices plus
its suppression flag (spec §3 Segment). -/
structure Seg where
  start : Nat
  stop : Nat
  sup : Bool
deriving DecidableEq

/-- Modelled from the spec: clamp a raw cut `m + offset` into the valid
range `[prevCut, len]` (spec §4.2 step 3); this also enforces the §3 Cut
Point invariant that cut points never decrease. -/
def clampCut (prevCut : Nat) (raw : Int) (len : Nat) : Nat :=
  (max (prevCut : Int) (min raw (len : Int))).toNat

/-- First index at or after `start` whose line matches (relative search). -/
def firstMatchIdx (pm : Line → Bool) : List Line → Option Nat
  | [] => none
  | l :: ls => if pm l then some 0 else (firstMatchIdx pm ls).map (· + 1)

/-- Modelled from the spec: scan forward for the next matching line from
the given index (spec §4.2 step 3); `none` is the NoMatch outcome. -/
def findMatch (pm : Line → Bool) (lines : List Line) (start : Nat) : Option Nat :=
  (firstMatchIdx pm (lines.drop start)).map (· + start)

/-- The state after committing a cut found at match line `m`: the cut is the
new previous cut, and the scan resumes strictly after the matched line (and
never before the cut). -/
def stepSt (m cut : Nat) : EngSt := ⟨cut, max (m + 1) cut⟩

/-- Modelled from the spec: a bounded repeat (spec §4.2 step 4) re-applies
the preceding regex pattern up to `count` more times; the boolean result
records whether a NoMatch ended it early (abandoning later patterns). The
Loop Guard is not active for a bounded repeat (spec §4.3). -/
def runRepB (lines : List Line) (r : RegexSpec) : Nat → EngSt → List Seg × EngSt × Bool
  | 0, st => ([], st, false)
  | k + 1, st =>
    match findMatch r.pm lines st.searchFrom with
    | none => ([], st, true)
    | some m =>
      let cut := clampCut st.prevCut ((m : Int) + r.off) lines.length
      let res := runRepB lines r k (stepSt m cut)
      (⟨st.prevCut, cut, r.sup⟩ :: res.1, res.2)

/-- Modelled from the spec: an unbounded repeat (spec §4.2 step 4, §4.3).
It stops on NoMatch, or — the Loop Guard — as soon as a resolved cut makes
no forward progress, in which case no further segment is emitted. The fuel
argument only bounds the recursion; `lines.length + 1` always suffices. -/
def runRepU (lines : List Line) (r : RegexSpec) : Nat → EngSt → List Seg × EngSt
  | 0, st => ([], st)
  | fuel + 1, st =>
    match findMatch r.pm lines st.searchFrom with
    | none => ([], st)
    | some m =>
      let cut := clampCut st.prevCut ((m : Int) + r.off) lines.length
      if cut = st.prevCut then ([], st)
      else
        let res := runRepU lines r fuel (stepSt m cut)
        (⟨st.prevCut, cut, r.sup⟩ :: res.1, res.2)

/-- Modelled from the spec: tail handling (spec §4.2 step 5): once the
patterns are exhausted or abandoned, any remaining input forms one final
non-suppressed segment. -/
def tailSegs (lines : List Line) (st : EngSt) : List Seg :=
  if st.prevCut < lines.length then [⟨st.prevCut, lines.length, false⟩] else []

/-- Modelled from the spec: the Split Cursor (spec §4.2). It walks the
pattern list carrying the engine state and the most recent regex-class
pattern (the one a following repeat re-applies); NoMatch abandons the
remaining patterns and falls through to tail handling. -/
def runPats (lines : List Line) : List Pat → EngSt → Option RegexSpec → List Seg
  | [], st, _ => tailSegs lines st
  | Pat.lineNum n :: ps, st, _ =>
    let cut := clampCut st.prevCut ((n : Int) - 1) lines.length
    ⟨st.prevCut, cut, false⟩ :: runPats lines ps ⟨cut, max st.searchFrom cut⟩ none
  | Pat.regex pm off sup :: ps, st, _ =>
    match findMatch pm lines st.searchFrom with
    | none => tailSegs lines st
    | some m =>
      let cut := clampCut st.prevCut ((m : Int) + off) lines.length
      ⟨st.prevCut, cut, sup⟩ :: runPats lines ps (stepSt m cut) (some ⟨pm, off, sup⟩)
  | Pat.rep _ :: ps, st, none => runPats lines ps st none
  | Pat.rep (some k) :: ps, st, some r =>
    let res := runRepB lines r k st
    if res.2.2 then res.1 ++ tailSegs lines res.2.1
    else res.1 ++ runPats lines ps res.2.1 (some r)
  | Pat.rep none :: _, st, some r =>
    let res := runRepU lines r (lines.length + 1) st
    res.1 ++ tailSegs lines res.2

/-- The full segment stream of one run (spec §4.2 step 1: start at cut 0). -/
def csplitSegments (lines : List Line) (pats : List Pat) : List Seg :=
  runPats lines pats ⟨0, 0⟩ none

/-- The lines covered by a segment. -/
def segSlice (lines : List Line) (s : Seg) : List Line :=
  (lines.drop s.start).take (s.stop - s.start)

/-- Byte size of a segment: the sizes of its lines, terminators included. -/
def segBytes (lines : List Line) (s : Seg) : Nat :=
  ((segSlice lines s).map String.utf8ByteSize).sum

/-- Modelled from the spec: the Segment Sink keeps a segment only if it is
not suppressed (spec §4.4); a zero-length segment also creates no
destination, as pinned by the observed reference behavior the spec records
in §9 (a non-progressing repeat run yields a single destination). -/
def keepSeg (s : Seg) : Bool := !s.sup && decide (s.start < s.stop)

/-- Modelled from the spec: the sink assigns sequential destination indices,
starting at 0, only to kept segments (spec §4.4, §6). -/
def destinations (segs : List Seg) : List (Nat × Seg) :=
  (List.range (segs.filter keepSeg).length).zip (segs.filter keepSeg)

/-- Modelled from the spec: the byte counts the Report Emitter prints, one
per kept segment in emission order (spec §4.5). -/
def sizesOf (lines : List Line) (segs : List Seg) : List Nat :=
  (segs.filter keepSeg).map (segBytes lines)

/-- The error taxonomy entry raised by pattern validation (spec §4.1, §7). -/
inductive CsplitErr where
  | invalidPattern
deriving DecidableEq

/-- What the previously seen pattern element was, for validation. -/
inductive PrevKind where
  | start
  | lineNo
  | regexClass
  | repeatOp
deriving DecidableEq

/-- Modelled from the spec: pattern-list validation (spec §4.1): a line
number must be positive and strictly greater than any preceding line
number; a repeat must follow a regex-class pattern — when `strict` is
false, a repeat directly after a line number is also accepted, which is the
behavior the test suite pins. -/
def checkAux (strict : Bool) : List Pat → PrevKind → Option Nat → Except CsplitErr Unit
  | [], _, _ => Except.ok ()
  | Pat.lineNum n :: ps, _, last =>
    if n = 0 then Except.error CsplitErr.invalidPattern
    else
      match last with
      | some m =>
        if n ≤ m then Except.error CsplitErr.invalidPattern
        else checkAux strict ps PrevKind.lineNo (some n)
      | none => checkAux strict ps PrevKind.lineNo (some n)
  | Pat.regex _ _ _ :: ps, _, last => checkAux strict ps PrevKind.regexClass last
  | Pat.rep _ :: ps, prev, last =>
    match prev with
    | PrevKind.regexClass => checkAux strict ps PrevKind.repeatOp last
    | PrevKind.lineNo =>
      if strict then Except.error CsplitErr.invalidPattern
      else checkAux strict ps PrevKind.repeatOp last
    | _ => Except.error CsplitErr.invalidPattern

/-- Modelled from the spec: §4.1 validation exactly as worded (a repeat is
never valid after a line number). -/
def checkPatterns (ps : List Pat) : Except CsplitErr Unit :=
  checkAux true ps PrevKind.start none

/-- Pattern validation as the test suite pins it: a repeat directly after a
line number is accepted (`test_csplit_text_by_lines` runs `5 \x7b3\x7d`
successfully); everything else as in spec §4.1. -/
def checkPatternsAmended (ps : List Pat) : Except CsplitErr Unit :=
  checkAux false ps PrevKind.start none

/-- The observable outcome of one run: report stream, error stream,
completion status, and the destinations created. -/
structure RunResult where
  out : String
  err : String
  exitCode : Nat
  dests : List (Nat × Seg)
deriving DecidableEq

/-- Modelled from the spec: the whole pipeline (spec §2 control flow, §7):
validation failure is fatal before any segment or destination exists; a
valid run always completes with status 0, an empty error stream, and the
report unless globally suppressed. -/
def csplitRun (lines : List Line) (pats : List Pat) (quiet : Bool) : RunResult :=
  match checkPatternsAmended pats with
  | Except.error _ => ⟨"", "csplit: invalid pattern\n", 1, []⟩
  | Except.ok _ =>
    let segs := csplitSegments lines pats
    ⟨if quiet then "" else reportBlocks (sizesOf lines segs), "", 0, destinations segs⟩

/-- Modelled from the spec: tests/assets/would_infloop.txt is not among the
visible sources; it is modelled as the single 2-byte line matched by `/a/`,
consistent with the pinned report stream of its test. -/
def wouldInfloopLines : List Line := ["a\n"]

/-- The matcher of the regex `/a/`: the line contains the character. -/
def matchA : Line → Bool := fun l => l.data.contains 'a'

/-- The pattern list of `test_csplit_regex_would_infloop`. -/
def wouldInfloopPats : List Pat := [Pat.regex matchA (-1) false, Pat.rep none]

/-- A small input for the suppressed-leading-segment scenario (spec §8):
a suppressed pattern followed by two non-suppressed ones. -/
def demoLines : List Line := ["aa\n", "bb\n", "cc\n", "dd\n"]

/-- A suppressed regex pattern followed by two non-suppressed regex
patterns, the last one cutting exactly at end of input. -/
def demoPats : List Pat :=
  [Pat.regex (fun l => l == "bb\n") 0 true,
   Pat.regex (fun l => l == "cc\n") 0 false,
   Pat.regex (fun l => l == "dd\n") 1 false]

/-! ### Properties of cut-point clamping -/

theorem clampCut_ge (p : Nat) (r : Int) (L : Nat) : p ≤ clampCut p r L := by
  unfold clampCut; omega

theorem clampCut_le (p : Nat) (r : Int) (L : Nat) (h : p ≤ L) : clampCut p r L ≤ L := by
  unfold clampCut; omega

theorem clampCut_of_lt (p : Nat) (r : Int) (L : Nat) (h : r < (p : Int)) : clampCut p r L = p := by
  unfold clampCut; omega

theorem clampCut_of_between (p : Nat) (r : Int) (L : Nat) (h1 : (p : Int) ≤ r)
    (h2 : r ≤ (L : Int)) : clampCut p r L = r.toNat := by
  unfold clampCut; omega

/-! ### Properties of the forward scan -/

theorem firstMatchIdx_lt {pm : Line → Bool} :
    ∀ {l : List Line} {i : Nat}, firstMatchIdx pm l = some i → i < l.length := by
  intro l
  induction l with
  | nil => intro i h; simp [firstMatchIdx] at h
  | cons a as ih =>
    intro i h
    by_cases hp : pm a
    · simp [firstMatchIdx, hp] at h
      simp only [List.length_cons]
      omega
    · simp [firstMatchIdx, hp] at h
      obtain ⟨j, hj, rfl⟩ := h
      have := ih hj
      simp
      omega

theorem findMatch_ge {pm : Line → Bool} {lines : List Line} {s m : Nat}
    (h : findMatch pm lines s = some m) : s ≤ m := by
  unfold findMatch at h
  obtain ⟨i, _, hm⟩ := Option.map_eq_some'.mp h
  have hm' : i + s = m := hm
  omega

theorem findMatch_lt {pm : Line → Bool} {lines : List Line} {s m : Nat}
    (h : findMatch pm lines s = some m) : m < lines.length := by
  unfold findMatch at h
  obtain ⟨i, hi, hm⟩ := Option.map_eq_some'.mp h
  have hm' : i + s = m := hm
  have := firstMatchIdx_lt hi
  rw [List.length_drop] at this
  omega

theorem findMatch_none_of_le {pm : Line → Bool} {lines : List Line} {s : Nat}
    (h : lines.length ≤ s) : findMatch pm lines s = none := by
  unfold findMatch
  rw [List.drop_eq_nil_of_le h]
  rfl

/-! ### Segments glue back onto the input -/

theorem slice_glue (lines : List Line) {a b : Nat} (hab : a ≤ b) :
    (lines.drop a).take (b - a) ++ lines.drop b = lines.drop a := by
  have h : lines.drop b = (lines.drop a).drop (b - a) := by
    rw [List.drop_drop]
    congr 1
    omega
  rw [h, List.take_append_drop]

theorem tailSegs_flatten (lines : List Line) (st : EngSt) (h : st.prevCut ≤ lines.length) :
    ((tailSegs lines st).map (segSlice lines)).flatten = lines.drop st.prevCut := by
  unfold tailSegs
  split
  · simp only [List.map_cons, List.map_nil, List.flatten_cons, List.flatten_nil,
      List.append_nil, segSlice]
    apply List.take_of_length_le
    simp
  · have hge : lines.length ≤ st.prevCut := by omega
    simp [List.drop_eq_nil_of_le hge]

theorem runRepB_inv (lines : List Line) (r : RegexSpec) :
    ∀ (k : Nat) (st : EngSt), st.prevCut ≤ lines.length →
      st.prevCut ≤ (runRepB lines r k st).2.1.prevCut
      ∧ (runRepB lines r k st).2.1.prevCut ≤ lines.length
      ∧ ((runRepB lines r k st).1.map (segSlice lines)).flatten
          ++ lines.drop (runRepB lines r k st).2.1.prevCut = lines.drop st.prevCut := by
  intro k
  induction k with
  | zero => intro st h; simp [runRepB, h]
  | succ k ih =>
    intro st h
    cases hm : findMatch r.pm lines st.searchFrom with
    | none => simp [runRepB, hm, h]
    | some m =>
      have hge := clampCut_ge st.prevCut ((m : Int) + r.off) lines.length
      have hle := clampCut_le st.prevCut ((m : Int) + r.off) lines.length h
      obtain ⟨ih1, ih2, ih3⟩ :=
        ih (stepSt m (clampCut st.prevCut ((m : Int) + r.off) lines.length)) hle
      simp only [runRepB, hm, List.map_cons, List.flatten_cons, List.append_assoc]
      refine ⟨le_trans hge ih1, ih2, ?_⟩
      rw [ih3]
      simp only [segSlice]
      exact slice_glue lines hge

theorem runRepU_inv (lines : List Line) (r : RegexSpec) :
    ∀ (fuel : Nat) (st : EngSt), st.prevCut ≤ lines.length →
      st.prevCut ≤ (runRepU lines r fuel st).2.prevCut
      ∧ (runRepU lines r fuel st).2.prevCut ≤ lines.length
      ∧ ((runRepU lines r fuel st).1.map (segSlice lines)).flatten
          ++ lines.drop (runRepU lines r fuel st).2.prevCut = lines.drop st.prevCut := by
  intro fuel
  induction fuel with
  | zero => intro st h; simp [runRepU, h]
  | succ fuel ih =>
    intro st h
    cases hm : findMatch r.pm lines st.searchFrom with
    | none => simp [runRepU, hm, h]
    | some m =>
      have hge := clampCut_ge st.prevCut ((m : Int) + r.off) lines.length
      have hle := clampCut_le st.prevCut ((m : Int) + r.off) lines.length h
      by_cases hcut : clampCut st.prevCut ((m : Int) + r.off) lines.length = st.prevCut
      · simp [runRepU, hm, hcut, h]
      · obtain ⟨ih1, ih2, ih3⟩ :=
          ih (stepSt m (clampCut st.prevCut ((m : Int) + r.off) lines.length)) hle
        simp only [runRepU, hm, if_neg hcut, List.map_cons, List.flatten_cons,
          List.append_assoc]
        refine ⟨le_trans hge ih1, ih2, ?_⟩
        rw [ih3]
        simp only [segSlice]
        exact slice_glue lines hge

theorem runPats_flatten (lines : List Line) :
    ∀ (ps : List Pat) (st : EngSt) (prev : Option RegexSpec), st.prevCut ≤ lines.length →
      ((runPats lines ps st prev).map (segSlice lines)).flatten = lines.drop st.prevCut := by
  intro ps
  induction ps with
  | nil => intro st prev h; exact tailSegs_flatten lines st h
  | cons p ps ih =>
    intro st prev h
    cases p with
    | lineNum n =>
      have hge := clampCut_ge st.prevCut ((n : Int) - 1) lines.length
      have hle := clampCut_le st.prevCut ((n : Int) - 1) lines.length h
      simp only [runPats, List.map_cons, List.flatten_cons]
      rw [ih _ none hle]
      simp only [segSlice]
      exact slice_glue lines hge
    | regex pm off sup =>
      cases hm : findMatch pm lines st.searchFrom with
      | none =>
        simp only [runPats, hm]
        exact tailSegs_flatten lines st h
      | some m =>
        have hge := clampCut_ge st.prevCut ((m : Int) + off) lines.length
        have hle := clampCut_le st.prevCut ((m : Int) + off) lines.length h
        simp only [runPats, hm, List.map_cons, List.flatten_cons]
        rw [ih _ _ hle]
        simp only [segSlice]
        exact slice_glue lines hge
    | rep c =>
      cases prev with
      | none =>
        simp only [runPats]
        exact ih _ none h
      | some r =>
        cases c with
        | some k =>
          obtain ⟨h1, h2, h3⟩ := runRepB_inv lines r k st h
          simp only [runPats]
          split
          · rw [List.map_append, List.flatten_append, tailSegs_flatten lines _ h2]
            exact h3
          · rw [List.map_append, List.flatten_append, ih _ _ h2]
            exact h3
        | none =>
          obtain ⟨h1, h2, h3⟩ := runRepU_inv lines r (lines.length + 1) st h
          simp only [runPats]
          rw [List.map_append, List.flatten_append, tailSegs_flatten lines _ h2]
          exact h3

/-- The spec-modelled engine reconstructs the input exactly: the segments'
line ranges, in emission order, concatenate to the whole input (spec §8). -/
theorem csplit_partition (lines : List Line) (pats : List Pat) :
    ((csplitSegments lines pats).map (segSlice lines)).flatten = lines := by
  have h := runPats_flatten lines pats ⟨0, 0⟩ none (Nat.zero_le _)
  simpa using h

/-! ### Termination of the unbounded repeat -/

theorem runRepU_none (lines : List Line) (r : RegexSpec) (st : EngSt)
    (hm : findMatch r.pm lines st.searchFrom = none) :
    ∀ fuel, runRepU lines r fuel st = ([], st) := by
  intro fuel
  cases fuel with
  | zero => rfl
  | succ fuel => simp [runRepU, hm]

theorem runRepU_guard (lines : List Line) (r : RegexSpec) (st : EngSt) (fuel m : Nat)
    (hm : findMatch r.pm lines st.searchFrom = some m)
    (hcut : clampCut st.prevCut ((m : Int) + r.off) lines.length = st.prevCut) :
    runRepU lines r (fuel + 1) st = ([], st) := by
  simp [runRepU, hm, hcut]

theorem runRepU_fuel_mono (lines : List Line) (r : RegexSpec) :
    ∀ (n f₁ f₂ : Nat) (st : EngSt), lines.length + 1 - st.searchFrom ≤ n →
      n ≤ f₁ → n ≤ f₂ → runRepU lines r f₁ st = runRepU lines r f₂ st := by
  intro n
  induction n with
  | zero =>
    intro f₁ f₂ st hb _ _
    have hm := @findMatch_none_of_le r.pm lines st.searchFrom (by omega)
    rw [runRepU_none lines r st hm f₁, runRepU_none lines r st hm f₂]
  | succ n ih =>
    intro f₁ f₂ st hb h1 h2
    cases hm : findMatch r.pm lines st.searchFrom with
    | none => rw [runRepU_none lines r st hm f₁, runRepU_none lines r st hm f₂]
    | some m =>
      have hge := findMatch_ge hm
      have hlt := findMatch_lt hm
      obtain ⟨a, rfl⟩ : ∃ a, f₁ = a + 1 := ⟨f₁ - 1, by omega⟩
      obtain ⟨b, rfl⟩ : ∃ b, f₂ = b + 1 := ⟨f₂ - 1, by omega⟩
      by_cases hcut : clampCut st.prevCut ((m : Int) + r.off) lines.length = st.prevCut
      · simp [runRepU, hm, hcut]
      · have hrec : runRepU lines r a
              (stepSt m (clampCut st.prevCut ((m : Int) + r.off) lines.length))
            = runRepU lines r b
              (stepSt m (clampCut st.prevCut ((m : Int) + r.off) lines.length)) := by
          apply ih a b _ ?_ (by omega) (by omega)
          show lines.length + 1
              - max (m + 1) (clampCut st.prevCut ((m : Int) + r.off) lines.length) ≤ n
          have hmx : m + 1 ≤ max (m + 1)
              (clampCut st.prevCut ((m : Int) + r.off) lines.length) :=
            Nat.le_max_left _ _
          omega
        simp only [runRepU, hm, if_neg hcut]
        rw [hrec]

/-! ### The Segment Sink -/

theorem destinations_idx (segs : List Seg) :
    (destinations segs).map Prod.fst = List.range (segs.filter keepSeg).length := by
  unfold destinations
  apply List.map_fst_zip
  simp

theorem destinations_not_sup (segs : List Seg) (p : Nat × Seg)
    (hp : p ∈ destinations segs) : p.2.sup = false := by
  unfold destinations at hp
  cases p with
  | mk i s =>
    have h2 := (List.of_mem_zip hp).2
    rw [List.mem_filter] at h2
    have hk := h2.2
    simp only [keepSeg, Bool.and_eq_true, Bool.not_eq_true'] at hk
    exact hk.1

theorem sizesOf_length (lines : List Line) (segs : List Seg) :
    (sizesOf lines segs).length = (destinations segs).length := by
  unfold sizesOf destinations
  simp

/-! ### The claims -/

/-- C1: the spec-modelled engine does reconstruct the input exactly from the
emitted segments' line ranges; but the behavior the repository's own test
pins reports segment sizes summing to 145 bytes for a 148-byte input, so
the byte sizes of the segments cannot sum to the byte size of the input as
the claim asserts (one byte is lost per interior segment boundary). -/
theorem csplit_partition_vs_pinned_report :
    (∀ (lines : List Line) (pats : List Pat),
        ((csplitSegments lines pats).map (segSlice lines)).flatten = lines)
    ∧ csplitTextByLinesPlan.expected_out = reportBlocks [43, 57, 31, 14]
    ∧ 43 + 57 + 31 + 14 = 145
    ∧ csplitTextByLinesPlan.stdin_data.utf8ByteSize = 148 := by
  exact ⟨csplit_partition, rfl, rfl, rfl⟩

/-- C2 counterexample: the scenario input is not fully newline-terminated —
its 17th line is the bare "17" with no terminator, so "each line
newline-terminated" is false of the pinned input (and the pinned size 14 of
the last segment is only consistent with the unterminated form). -/
theorem text_by_lines_last_line_unterminated :
    (splitLinesKeep csplitTextByLinesPlan.stdin_data).getLast? = some "17"
    ∧ ((splitLinesKeep csplitTextByLinesPlan.stdin_data).all
        (fun l => decide (l.data.getLast? = some '\n'))) = false := by
  exact ⟨rfl, rfl⟩

/-- C2 amended: the 17-line input, every line except the final "17"
newline-terminated, split with the pattern list 5 followed by a repeat of 3,
is pinned to report the byte sizes 43, 57, 31, 14 in that order and to
create exactly the four destinations text00 through text03. -/
theorem text_by_lines_scenario_pinned :
    (splitLinesKeep csplitTextByLinesPlan.stdin_data).length = 17
    ∧ ((splitLinesKeep csplitTextByLinesPlan.stdin_data).dropLast.all
        (fun l => decide (l.data.getLast? = some '\n'))) = true
    ∧ (splitLinesKeep csplitTextByLinesPlan.stdin_data).getLast? = some "17"
    ∧ csplitTextByLinesPlan.args = ["-f", "text", "-", "5", "{3}"]
    ∧ csplitTextByLinesPlan.expected_out = reportBlocks [43, 57, 31, 14]
    ∧ csplitTextByLinesPlan.expected_err = ""
    ∧ csplitTextByLinesPlan.expected_exit_code = 0
    ∧ csplitTextByLinesRemoved = (List.range 4).map (destName "text") := by
  exact ⟨rfl, rfl, rfl, rfl, rfl, rfl, rfl, rfl⟩

/-- C3 counterexample: the spec's §4.1 rule (as the claim states it) rejects
a repeat directly after a line number, yet the repository's test
`test_csplit_text_by_lines` runs precisely such a list and requires exit
code 0, a non-empty report, and four created destinations. -/
theorem repeat_after_line_number_rejected_but_test_requires_success :
    checkPatterns [Pat.lineNum 5, Pat.rep (some 3)]
      = Except.error CsplitErr.invalidPattern
    ∧ csplitTextByLinesPlan.args.drop 3 = ["5", "{3}"]
    ∧ csplitTextByLinesPlan.expected_exit_code = 0
    ∧ csplitTextByLinesPlan.expected_out ≠ ""
    ∧ csplitTextByLinesRemoved.length = 4 := by
  refine ⟨rfl, rfl, rfl, ?_, rfl⟩
  decide

/-- C3 amended: a repeat as first element still fails with InvalidPattern
before any segment or destination exists; a repeat directly after a line
number is accepted, as the test suite pins. -/
theorem repeat_validity_amended :
    checkPatternsAmended [Pat.rep (some 3)] = Except.error CsplitErr.invalidPattern
    ∧ checkPatternsAmended [Pat.lineNum 5, Pat.rep (some 3)] = Except.ok ()
    ∧ (∀ (lines : List Line) (ps : List Pat) (q : Bool),
        checkPatternsAmended ps = Except.error CsplitErr.invalidPattern →
        csplitRun lines ps q = ⟨"", "csplit: invalid pattern\n", 1, []⟩) := by
  refine ⟨rfl, rfl, ?_⟩
  intro lines ps q h
  simp [csplitRun, h]

theorem repeat_validity_amended_witness :
    csplitRun ["x\n"] [Pat.rep (some 3)] false
      = ⟨"", "csplit: invalid pattern\n", 1, []⟩ :=
  repeat_validity_amended.2.2 ["x\n"] [Pat.rep (some 3)] false rfl

/-- C4 counterexample: the pinned report stream is not one count per line
with nothing in between; it carries an extra empty line after each count. -/
theorem report_stream_not_bare_lines :
    reportPerLine [43, 57, 31, 14] ≠ csplitTextByLinesPlan.expected_out := by
  decide

/-- C4 amended: the report stream is one decimal byte count per kept
destination in creation order, each followed by a newline and one extra
empty line; requesting global suppression yields no report output at all
while the destinations are unchanged (the suppress test still removes its
four created files). -/
theorem report_blocks_and_global_suppression :
    (∀ (lines : List Line) (ps : List Pat), checkPatternsAmended ps = Except.ok () →
        (csplitRun lines ps true).out = ""
        ∧ (csplitRun lines ps true).dests = (csplitRun lines ps false).dests
        ∧ (csplitRun lines ps false).out
            = reportBlocks (sizesOf lines (csplitSegments lines ps))
        ∧ (sizesOf lines (csplitSegments lines ps)).length
            = (destinations (csplitSegments lines ps)).length)
    ∧ csplitTextByLinesPlan.expected_out = reportBlocks [43, 57, 31, 14]
    ∧ codeCSuppressPlan.expected_out = ""
    ∧ codeCSuppressPlan.expected_exit_code = 0
    ∧ codeCSuppressRemoved.length = 4 := by
  refine ⟨?_, rfl, rfl, rfl, rfl⟩
  intro lines ps h
  refine ⟨by simp [csplitRun, h], by simp [csplitRun, h], by simp [csplitRun, h], ?_⟩
  exact sizesOf_length lines (csplitSegments lines ps)

theorem report_blocks_and_global_suppression_witness :
    (csplitRun ["a\n"] [] true).out = ""
    ∧ (csplitRun ["a\n"] [] true).dests = (csplitRun ["a\n"] [] false).dests
    ∧ (csplitRun ["a\n"] [] false).out
        = reportBlocks (sizesOf ["a\n"] (csplitSegments ["a\n"] []))
    ∧ (sizesOf ["a\n"] (csplitSegments ["a\n"] [])).length
        = (destinations (csplitSegments ["a\n"] [])).length :=
  report_blocks_and_global_suppression.1 ["a\n"] [] rfl

/-- C5: a suppressed segment is never among the destinations, consumes no
destination index and contributes no report entry; kept destinations are
numbered contiguously from 0, so a run whose first segment is suppressed
still starts its destinations at suffix 00 (here: the spec §8 scenario of a
suppressed pattern followed by two non-suppressed ones gives exactly the
destinations xx00 and xx01). -/
theorem suppressed_segments_no_index_no_report :
    (∀ segs : List Seg,
        (destinations segs).map Prod.fst = List.range (segs.filter keepSeg).length)
    ∧ (∀ (segs : List Seg) (p : Nat × Seg), p ∈ destinations segs → p.2.sup = false)
    ∧ (∀ (lines : List Line) (segs : List Seg),
        (sizesOf lines segs).length = (destinations segs).length)
    ∧ ((csplitSegments demoLines demoPats).head?.map Seg.sup = some true)
    ∧ ((destinations (csplitSegments demoLines demoPats)).map
        (fun p => destName "xx" p.1) = ["xx00", "xx01"]) := by
  exact ⟨destinations_idx, destinations_not_sup, sizesOf_length, rfl, rfl⟩

theorem suppressed_segments_no_index_no_report_witness :
    ((0, Seg.mk 1 2 false) : Nat × Seg).2.sup = false :=
  suppressed_segments_no_index_no_report.2.1 (csplitSegments demoLines demoPats)
    (0, Seg.mk 1 2 false) (by decide)

/-- C6: the unbounded repeat always terminates. First, the Loop Guard: as
soon as a match resolves to a cut with no forward progress, the repeat
stops at once, emitting nothing further. Second, the repeat's behavior is
independent of any fuel of at least one more than the lines left to scan,
so the scan runs past the end of input at most once. -/
theorem unbounded_repeat_guard_and_bounded_scan :
    (∀ (lines : List Line) (r : RegexSpec) (st : EngSt) (fuel m : Nat),
        findMatch r.pm lines st.searchFrom = some m →
        clampCut st.prevCut ((m : Int) + r.off) lines.length = st.prevCut →
        runRepU lines r (fuel + 1) st = ([], st))
    ∧ (∀ (lines : List Line) (r : RegexSpec) (st : EngSt) (f₁ f₂ : Nat),
        lines.length + 1 - st.searchFrom ≤ f₁ →
        lines.length + 1 - st.searchFrom ≤ f₂ →
        runRepU lines r f₁ st = runRepU lines r f₂ st) := by
  constructor
  · intro lines r st fuel m hm hcut
    exact runRepU_guard lines r st fuel m hm hcut
  · intro lines r st f₁ f₂ h1 h2
    exact runRepU_fuel_mono lines r (lines.length + 1 - st.searchFrom) f₁ f₂ st
      le_rfl h1 h2

theorem unbounded_repeat_guard_and_bounded_scan_witness :
    runRepU wouldInfloopLines ⟨matchA, -1, false⟩ 1 ⟨0, 0⟩ = ([], ⟨0, 0⟩)
    ∧ runRepU wouldInfloopLines ⟨matchA, -1, false⟩ 2 ⟨0, 0⟩
        = runRepU wouldInfloopLines ⟨matchA, -1, false⟩ 7 ⟨0, 0⟩ :=
  ⟨unbounded_repeat_guard_and_bounded_scan.1 wouldInfloopLines ⟨matchA, -1, false⟩
      ⟨0, 0⟩ 0 0 (by decide) (by decide),
   unbounded_repeat_guard_and_bounded_scan.2 wouldInfloopLines ⟨matchA, -1, false⟩
      ⟨0, 0⟩ 2 7 (by decide) (by decide)⟩

/-- C7: the cut committed for a regex match at line m is m + offset clamped
into the range from the previous cut to end of input: it never falls below
the previous cut (an offset aiming before it collapses to the previous cut,
a zero-length segment), never beyond end of input, and the engine commits
exactly this clamped value without any error outcome. -/
theorem regex_cut_point_clamped :
    (∀ (p : Nat) (raw : Int) (L : Nat), p ≤ L →
        p ≤ clampCut p raw L ∧ clampCut p raw L ≤ L)
    ∧ (∀ (p : Nat) (raw : Int) (L : Nat), raw < (p : Int) → clampCut p raw L = p)
    ∧ (∀ (p : Nat) (raw : Int) (L : Nat), (p : Int) ≤ raw → raw ≤ (L : Int) →
        clampCut p raw L = raw.toNat)
    ∧ (∀ (lines : List Line) (pm : Line → Bool) (off : Int) (sup : Bool)
        (ps : List Pat) (st : EngSt) (prev : Option RegexSpec) (m : Nat),
        findMatch pm lines st.searchFrom = some m →
        runPats lines (Pat.regex pm off sup :: ps) st prev
          = Seg.mk st.prevCut (clampCut st.prevCut ((m : Int) + off) lines.length) sup
            :: runPats lines ps
                (stepSt m (clampCut st.prevCut ((m : Int) + off) lines.length))
                (some ⟨pm, off, sup⟩)) := by
  refine ⟨fun p raw L h => ⟨clampCut_ge p raw L, clampCut_le p raw L h⟩,
    clampCut_of_lt, clampCut_of_between, ?_⟩
  intro lines pm off sup ps st prev m hm
  simp [runPats, hm]

theorem regex_cut_point_clamped_witness :
    (3 ≤ clampCut 3 (-2) 5 ∧ clampCut 3 (-2) 5 ≤ 5)
    ∧ clampCut 3 (-2) 5 = 3
    ∧ clampCut 1 4 5 = (4 : Int).toNat
    ∧ runPats wouldInfloopLines [Pat.regex matchA (-1) false] ⟨0, 0⟩ none
        = Seg.mk 0 (clampCut 0 ((0 : Int) + -1) 1) false
          :: runPats wouldInfloopLines [] (stepSt 0 (clampCut 0 ((0 : Int) + -1) 1))
              (some ⟨matchA, -1, false⟩) :=
  ⟨regex_cut_point_clamped.1 3 (-2) 5 (by decide),
   regex_cut_point_clamped.2.1 3 (-2) 5 (by decide),
   regex_cut_point_clamped.2.2.1 1 4 5 (by decide) (by decide),
   regex_cut_point_clamped.2.2.2 wouldInfloopLines matchA (-1) false [] ⟨0, 0⟩ none 0
     (by decide)⟩

/-- C8: on the modelled would_infloop input (a single 2-byte line matched by
the pattern with offset -1) the run emits the clamped zero-length segment
and then exactly one real segment — the whole-input tail: one destination,
reported as 2 bytes, exactly the stream the repository's test pins. -/
theorem would_infloop_one_destination_two_bytes :
    csplitSegments wouldInfloopLines wouldInfloopPats
      = [Seg.mk 0 0 false, Seg.mk 0 1 false]
    ∧ (destinations (csplitSegments wouldInfloopLines wouldInfloopPats)).length = 1
    ∧ sizesOf wouldInfloopLines (csplitSegments wouldInfloopLines wouldInfloopPats)
        = [2]
    ∧ (csplitRun wouldInfloopLines wouldInfloopPats false).out
        = wouldInfloopPlan.expected_out
    ∧ wouldInfloopRemoved = [destName "would_infloop" 0] := by
  exact ⟨rfl, rfl, rfl, rfl, rfl⟩

/-- C9: a regex that matches nothing in the remaining input is not fatal:
the remaining patterns are abandoned and the remaining input becomes the
one final non-suppressed tail segment; every validated run completes with
status 0, an empty error stream, and a report of exactly the kept segments'
sizes — as the in_uniq test also pins (exit 0 with a four-entry report). -/
theorem nomatch_abandons_to_tail :
    (∀ (lines : List Line) (pm : Line → Bool) (off : Int) (sup : Bool)
        (ps : List Pat) (st : EngSt) (prev : Option RegexSpec),
        findMatch pm lines st.searchFrom = none →
        runPats lines (Pat.regex pm off sup :: ps) st prev = tailSegs lines st)
    ∧ (∀ (lines : List Line) (st : EngSt), st.prevCut < lines.length →
        tailSegs lines st = [Seg.mk st.prevCut lines.length false])
    ∧ (∀ (lines : List Line) (ps : List Pat) (q : Bool),
        checkPatternsAmended ps = Except.ok () →
        (csplitRun lines ps q).exitCode = 0 ∧ (csplitRun lines ps q).err = ""
        ∧ (csplitRun lines ps false).out
            = reportBlocks (sizesOf lines (csplitSegments lines ps)))
    ∧ inUniqPlan.expected_exit_code = 0
    ∧ inUniqPlan.expected_out = reportBlocks [6, 10, 8, 9] := by
  refine ⟨?_, ?_, ?_, rfl, rfl⟩
  · intro lines pm off sup ps st prev hm
    simp [runPats, hm]
  · intro lines st h
    simp [tailSegs, h]
  · intro lines ps q h
    refine ⟨by simp [csplitRun, h], by simp [csplitRun, h], by simp [csplitRun, h]⟩

theorem nomatch_abandons_to_tail_witness :
    runPats ["x\n"] [Pat.regex (fun l => l == "zz") 0 false] ⟨0, 0⟩ none
      = tailSegs ["x\n"] ⟨0, 0⟩ :=
  nomatch_abandons_to_tail.1 ["x\n"] (fun l => l == "zz") 0 false [] ⟨0, 0⟩ none
    (by decide)

/-- C10: on every validated non-quiet run the report stream is exactly the
concatenation of one decimal-count-newline-empty-line block per kept
destination and the error stream is empty; the pinned expected streams of
the cited tests have exactly this block shape with empty stderr. -/
theorem report_blocks_per_destination_and_silent_err :
    (∀ (lines : List Line) (ps : List Pat), checkPatternsAmended ps = Except.ok () →
        (csplitRun lines ps false).out
          = String.join ((sizesOf lines (csplitSegments lines ps)).map
              (fun n => Nat.repr n ++ "\n\n"))
        ∧ (csplitRun lines ps false).err = "")
    ∧ csplitTextByLinesPlan.expected_out = reportBlocks [43, 57, 31, 14]
    ∧ csplitTextByLinesPlan.expected_err = ""
    ∧ emptyLinesPlan.expected_out = reportBlocks [6, 7]
    ∧ emptyLinesPlan.expected_err = "" := by
  refine ⟨?_, rfl, rfl, rfl, rfl⟩
  intro lines ps h
  constructor
  · simp [csplitRun, h, reportBlocks]
  · simp [csplitRun, h]

theorem report_blocks_per_destination_and_silent_err_witness :
    (csplitRun ["a\n"] [] false).out
      = String.join ((sizesOf ["a\n"] (csplitSegments ["a\n"] [])).map
          (fun n => Nat.repr n ++ "\n\n"))
    ∧ (csplitRun ["a\n"] [] false).err = "" :=
  report_blocks_per_destination_and_silent_err.1 ["a\n"] [] rfl

end Csplit

